import Mathlib

/-!
Verification development for the sentinel periodic job runner.

The Rust sources are shallowly embedded: byte strings are lists of
naturals below 256, u64 arithmetic is natural-number arithmetic with
explicit saturation at 2^64 - 1, the key/value store is a function from
key bytes to optional value bytes, and the on-disk encoding is a model
of bincode 1.x with its legacy options (fixed-width little-endian
integers, length-prefixed strings, trailing bytes allowed).
-/

namespace Sentinel

/-- UTF-8 bytes of an ASCII string literal (every character below 128
encodes as its own code point, which matches Rust's as_bytes). -/
def ascii (s : String) : List Nat := s.toList.map Char.toNat

/-- Exclusive upper bound of u64. -/
def U64 : Nat := 18446744073709551616

/-- Exclusive upper bound of u32. -/
def U32 : Nat := 4294967296

/-- Rust u64::saturating_add. -/
def satAdd (a b : Nat) : Nat := min (a + b) (U64 - 1)

/-- Rust u64::saturating_mul. -/
def satMul (a b : Nat) : Nat := min (a * b) (U64 - 1)

/-- Little-endian byte encoding of a value into a fixed byte count,
as bincode 1.x legacy options write fixed-width integers. -/
def leBytes : Nat → Nat → List Nat
  | 0, _ => []
  | k + 1, n => n % 256 :: leBytes k (n / 256)

/-- Read a fixed-width little-endian integer; fails when the input is
shorter than the width.  Returns the value and the remaining bytes. -/
def readLE : Nat → List Nat → Option (Nat × List Nat)
  | 0, rest => some (0, rest)
  | _ + 1, [] => none
  | k + 1, b :: rest =>
    match readLE k rest with
    | some (v, r) => some (b + 256 * v, r)
    | none => none

/-- Bincode encoding of a u64. -/
def encU64 (n : Nat) : List Nat := leBytes 8 n

/-- Bincode encoding of a u32. -/
def encU32 (n : Nat) : List Nat := leBytes 4 n

/-- Read a bincode u64. -/
def readU64 (bs : List Nat) : Option (Nat × List Nat) := readLE 8 bs

/-- Whether a byte list is well-formed UTF-8, following the checks of
Rust's str::from_utf8 (no overlong forms, no surrogates, max U+10FFFF).
A continuation byte lies in 0x80..0xBF. -/
def isCont (b : Nat) : Bool := 128 ≤ b && b ≤ 191

/-- UTF-8 validity of a byte list (see isCont). -/
def validUtf8 : List Nat → Bool
  | [] => true
  | b :: rest =>
    if b ≤ 127 then validUtf8 rest
    else if 194 ≤ b && b ≤ 223 then
      match rest with
      | c1 :: r => isCont c1 && validUtf8 r
      | [] => false
    else if b = 224 then
      match rest with
      | c1 :: c2 :: r => (160 ≤ c1 && c1 ≤ 191) && isCont c2 && validUtf8 r
      | _ => false
    else if (225 ≤ b && b ≤ 236) || b = 238 || b = 239 then
      match rest with
      | c1 :: c2 :: r => isCont c1 && isCont c2 && validUtf8 r
      | _ => false
    else if b = 237 then
      match rest with
      | c1 :: c2 :: r => (128 ≤ c1 && c1 ≤ 159) && isCont c2 && validUtf8 r
      | _ => false
    else if b = 240 then
      match rest with
      | c1 :: c2 :: c3 :: r =>
        (144 ≤ c1 && c1 ≤ 191) && isCont c2 && isCont c3 && validUtf8 r
      | _ => false
    else if 241 ≤ b && b ≤ 243 then
      match rest with
      | c1 :: c2 :: c3 :: r => isCont c1 && isCont c2 && isCont c3 && validUtf8 r
      | _ => false
    else if b = 244 then
      match rest with
      | c1 :: c2 :: c3 :: r =>
        (128 ≤ c1 && c1 ≤ 143) && isCont c2 && isCont c3 && validUtf8 r
      | _ => false
    else false

/-- Bincode encoding of a Rust String: u64 byte length, then the bytes. -/
def encStr (s : List Nat) : List Nat := encU64 s.length ++ s

/-- Bincode decoding of a Rust String: read the length, take that many
bytes, and require them to be valid UTF-8 (String::from_utf8 fails on
invalid input). -/
def readStr (bs : List Nat) : Option (List Nat × List Nat) :=
  match readU64 bs with
  | none => none
  | some (len, rest) =>
    if len ≤ rest.length then
      let s := rest.take len
      if validUtf8 s then some (s, rest.drop len) else none
    else none

/-- Bincode encoding of a Vec of Strings: u64 element count, then each
element in order. -/
def encVecStr (xs : List (List Nat)) : List Nat :=
  encU64 xs.length ++ (xs.map encStr).flatten

/-- Read a fixed number of bincode Strings. -/
def readStrs : Nat → List Nat → Option (List (List Nat) × List Nat)
  | 0, rest => some ([], rest)
  | k + 1, bs =>
    match readStr bs with
    | none => none
    | some (s, rest) =>
      match readStrs k rest with
      | none => none
      | some (ss, rest2) => some (s :: ss, rest2)

/-- Bincode decoding of a Vec of Strings. -/
def readVecStr (bs : List Nat) : Option (List (List Nat) × List Nat) :=
  match readU64 bs with
  | none => none
  | some (n, rest) => readStrs n rest

/-- Dynamically typed JSON scalar stored in a KvPut action, modelling
serde_json::Value.  Numbers are modelled as integers (the float variant
of serde_json::Number is outside this model; no claim touches it). -/
inductive Jval where
  | null : Jval
  | bool : Bool → Jval
  | num : Int → Jval
  | str : List Nat → Jval
  | arr : List Jval → Jval
  | obj : List (List Nat × Jval) → Jval

/-- Value::as_str, some iff the value is a JSON string. -/
def Jval.asStr : Jval → Option (List Nat)
  | .str s => some s
  | _ => none

/-- Value::as_u64, some iff the number is an integer representable as
u64 (serde_json stores such numbers in its PosInt variant; negative
numbers and floats answer none). -/
def Jval.asU64 : Jval → Option Nat
  | .num i => if 0 ≤ i ∧ i < (U64 : Int) then some i.toNat else none
  | _ => none

/-- Actions a job can perform, from core/src/job.rs.  The enum carries
serde attributes tag equals type and rename_all equals snake_case,
so it is an internally tagged enum with tags noop, exec, http, kv_put
and kv_del. -/
inductive Action where
  | noop : Action
  | exec : List Nat → List (List Nat) → Option Nat → Action
  | http : List Nat → Option (List Nat) → Option (List Nat) → Option Nat → Action
  | kvPut : List Nat → List Nat → Jval → Action
  | kvDel : List Nat → Action

/-- A scheduled job specification, from core/src/job.rs. -/
structure JobSpec where
  period_ms : Nat
  action : Action

/-- Legacy job spec kept for read compatibility, from core/src/job.rs. -/
structure LegacySpec where
  cmd : List Nat
  period_ms : Nat
deriving DecidableEq

/-- Runtime state for a job, from core/src/job.rs; Default is all zero. -/
structure JobState where
  last_run_ms : Nat := 0
  runs : Nat := 0
  failures : Nat := 0
  backoff_ms : Nat := 0
deriving DecidableEq

instance : Inhabited JobState := ⟨{}⟩

/-- The all-zero default JobState (derive(Default) on the Rust struct). -/
def JobState.default : JobState := {}

/-- All four u64 fields in range. -/
def JobState.wf (s : JobState) : Prop :=
  s.last_run_ms < U64 ∧ s.runs < U64 ∧ s.failures < U64 ∧ s.backoff_ms < U64

/-- Bincode encoding of JobState: the four u64 fields in declaration
order. -/
def encJobState (s : JobState) : List Nat :=
  encU64 s.last_run_ms ++ encU64 s.runs ++ encU64 s.failures ++ encU64 s.backoff_ms

/-- Bincode decoding of JobState. -/
def readJobState (bs : List Nat) : Option (JobState × List Nat) :=
  match readU64 bs with
  | none => none
  | some (a, r1) =>
    match readU64 r1 with
    | none => none
    | some (b, r2) =>
      match readU64 r2 with
      | none => none
      | some (c, r3) =>
        match readU64 r3 with
        | none => none
        | some (d, r4) => some (⟨a, b, c, d⟩, r4)

/-- Bincode encoding of LegacySpec: cmd String then period u64. -/
def encLegacy (l : LegacySpec) : List Nat := encStr l.cmd ++ encU64 l.period_ms

/-- Bincode decoding of LegacySpec. -/
def readLegacy (bs : List Nat) : Option (LegacySpec × List Nat) :=
  match readStr bs with
  | none => none
  | some (cmd, r1) =>
    match readU64 r1 with
    | none => none
    | some (p, r2) => some (⟨cmd, p⟩, r2)

/-- Bincode encoding of serde_json::Value (Value::Number written through
serialize_u64 for non-negative integers and serialize_i64 for negative
ones, both 8 little-endian bytes; null through serialize_unit, which
writes nothing; arrays and maps length-prefixed). -/
def encJval : Jval → List Nat
  | .null => []
  | .bool b => [if b then 1 else 0]
  | .num i => leBytes 8 (Int.toNat (i % (U64 : Int)))
  | .str s => encStr s
  | .arr xs => encU64 xs.length ++ (xs.attach.map (fun x => encJval x.1)).flatten
  | .obj kvs =>
    encU64 kvs.length ++
      (kvs.attach.map (fun x => encStr x.1.1 ++ encJval x.1.2)).flatten
termination_by v => sizeOf v
decreasing_by
  · have h := List.sizeOf_lt_of_mem x.2
    simp only [Jval.arr.sizeOf_spec]
    omega
  · have h := List.sizeOf_lt_of_mem x.2
    have h2 : sizeOf x.1.2 < sizeOf x.1 := by
      obtain ⟨⟨a, b⟩, _⟩ := x
      simp
    simp only [Jval.obj.sizeOf_spec]
    omega

/-- Bincode encoding of Option of u64: tag byte 0 or 1, then the payload. -/
def encOptU64 : Option Nat → List Nat
  | none => [0]
  | some n => 1 :: encU64 n

/-- Bincode encoding of Option of String. -/
def encOptStr : Option (List Nat) → List Nat
  | none => [0]
  | some s => 1 :: encStr s

/-- Bincode encoding of Action.  Serialization of an internally tagged
enum goes through serialize_struct with the tag as first field; bincode
drops field names and writes the field values in order, so each variant
encodes as its snake_case tag string followed by its fields. -/
def encAction : Action → List Nat
  | .noop => encStr (ascii "noop")
  | .exec cmd args t =>
    encStr (ascii "exec") ++ encStr cmd ++ encU64 args.length ++
      (args.map encStr).flatten ++ encOptU64 t
  | .http url m b t =>
    encStr (ascii "http") ++ encStr url ++ encOptStr m ++ encOptStr b ++ encOptU64 t
  | .kvPut k d v => encStr (ascii "kv_put") ++ encStr k ++ encStr d ++ encJval v
  | .kvDel k => encStr (ascii "kv_del") ++ encStr k

/-- Bincode encoding of JobSpec: period u64 then the action. -/
def encJobSpec (s : JobSpec) : List Nat := encU64 s.period_ms ++ encAction s.action

/-- Bincode decoding of Action.  The enum carries the serde attribute
tag, making it internally tagged; serde deserializes an internally
tagged enum by buffering the content through
Deserializer::deserialize_any, and bincode 1.x rejects deserialize_any
with DeserializeAnyNotSupported.  The decode therefore fails on every
input, whatever bytes are present. -/
def readActionBincode (_bs : List Nat) : Option (Action × List Nat) := none

/-- Bincode decoding of JobSpec: the period u64 field decodes first,
then the Action field fails as described at readActionBincode. -/
def readJobSpecBincode (bs : List Nat) : Option (JobSpec × List Nat) :=
  match readU64 bs with
  | none => none
  | some (p, r) =>
    match readActionBincode r with
    | none => none
    | some (a, r2) => some (⟨p, a⟩, r2)

/-- The key/value store: key bytes to optional value bytes, modelling
the Kv trait of core/src/store.rs (FsKv holds one value per key; the
physical layout is treated separately at pathFor). -/
def Store : Type := List Nat → Option (List Nat)

/-- Kv::get. -/
def Store.get (st : Store) (k : List Nat) : Option (List Nat) := st k

/-- Kv::put, overwrite semantics. -/
def Store.put (st : Store) (k v : List Nat) : Store :=
  fun q => if q = k then some v else st q

/-- Kv::delete; the Bool result (whether a value existed) is read off
separately with Store.get. -/
def Store.del (st : Store) (k : List Nat) : Store :=
  fun q => if q = k then none else st q

/-- The empty store. -/
def Store.empty : Store := fun _ => none

/-- Namespaced key, as ns of core/src/store.rs: namespace bytes, one
colon (byte 58), then the name bytes. -/
def nskey (nsp key : List Nat) : List Nat := nsp ++ 58 :: key

/-- The registry key jobs:registry. -/
def regKey : List Nat := nskey (ascii "jobs") (ascii "registry")

/-- The spec key of a job id. -/
def specKey (id : List Nat) : List Nat := nskey (ascii "jobs") (id ++ ascii ":spec")

/-- The state key of a job id. -/
def stateKey (id : List Nat) : List Nat := nskey (ascii "jobs") (id ++ ascii ":state")

/-- KvSerde::get_t at type JobState: ok none when the key is absent,
error when present but undecodable (bincode allows trailing bytes). -/
def getTJobState (st : Store) (k : List Nat) : Except Unit (Option JobState) :=
  match st k with
  | none => .ok none
  | some bs =>
    match readJobState bs with
    | some (v, _) => .ok (some v)
    | none => .error ()

/-- KvSerde::get_t at type Vec of String. -/
def getTVecStr (st : Store) (k : List Nat) : Except Unit (Option (List (List Nat))) :=
  match st k with
  | none => .ok none
  | some bs =>
    match readVecStr bs with
    | some (v, _) => .ok (some v)
    | none => .error ()

/-- KvSerde::get_t at type LegacySpec. -/
def getTLegacy (st : Store) (k : List Nat) : Except Unit (Option LegacySpec) :=
  match st k with
  | none => .ok none
  | some bs =>
    match readLegacy bs with
    | some (v, _) => .ok (some v)
    | none => .error ()

/-- KvSerde::get_t at type String. -/
def getTStr (st : Store) (k : List Nat) : Except Unit (Option (List Nat)) :=
  match st k with
  | none => .ok none
  | some bs =>
    match readStr bs with
    | some (v, _) => .ok (some v)
    | none => .error ()

/-- KvSerde::get_t at type JobSpec (fails whenever a value is present,
see readActionBincode). -/
def getTJobSpec (st : Store) (k : List Nat) : Except Unit (Option JobSpec) :=
  match st k with
  | none => .ok none
  | some bs =>
    match readJobSpecBincode bs with
    | some (v, _) => .ok (some v)
    | none => .error ()

/-- KvSerde::put_t at type JobState (bincode serialization of four u64
fields cannot fail). -/
def putTJobState (st : Store) (k : List Nat) (s : JobState) : Store :=
  st.put k (encJobState s)

/-- KvSerde::put_t at type Vec of String. -/
def putTVecStr (st : Store) (k : List Nat) (xs : List (List Nat)) : Store :=
  st.put k (encVecStr xs)

/-- KvSerde::put_t at type JobSpec (serialization of the internally
tagged enum succeeds, see encAction). -/
def putTJobSpec (st : Store) (k : List Nat) (s : JobSpec) : Store :=
  st.put k (encJobSpec s)

/-- KvSerde::put_t at type LegacySpec. -/
def putTLegacy (st : Store) (k : List Nat) (l : LegacySpec) : Store :=
  st.put k (encLegacy l)

/-- KvSerde::put_t at type String. -/
def putTStr (st : Store) (k s : List Nat) : Store :=
  st.put k (encStr s)

/-- KvSerde::put_t at type u32. -/
def putTU32 (st : Store) (k : List Nat) (n : Nat) : Store :=
  st.put k (encU32 n)

/-- KvSerde::put_t at type u64. -/
def putTU64 (st : Store) (k : List Nat) (n : Nat) : Store :=
  st.put k (encU64 n)

/-- JSON whitespace bytes (space, tab, newline, carriage return). -/
def jsonWs (c : Nat) : Bool := c = 32 || c = 9 || c = 10 || c = 13

/-- ASCII decimal digit. -/
def isDigit (c : Nat) : Bool := 48 ≤ c && c ≤ 57

/-- Numeric value of a digit string. -/
def digitsVal (ds : List Nat) : Nat := ds.foldl (fun a c => a * 10 + (c - 48)) 0

/-- Parse an unsigned JSON integer numeral: at least one digit, no
leading zero, and no fraction or exponent following (such numerals are
floats, which are outside this model). -/
def parseNumNat (bs : List Nat) : Option (Nat × List Nat) :=
  match List.span (fun c => isDigit c) bs with
  | (ds, rest) =>
    if ds = [] then none
    else if 1 < ds.length ∧ ds.headI = 48 then none
    else if rest.headI = 46 ∨ rest.headI = 101 ∨ rest.headI = 69 then none
    else some (digitsVal ds, rest)

/-- Parse a JSON integer numeral as serde_json reads one into an i64 or
u64 (numerals outside those ranges become floats, outside this model). -/
def parseNum (bs : List Nat) : Option (Int × List Nat) :=
  match bs with
  | 45 :: r =>
    match parseNumNat r with
    | some (n, rest) => if n ≤ 2 ^ 63 then some (-(n : Int), rest) else none
    | none => none
  | _ =>
    match parseNumNat bs with
    | some (n, rest) => if n < U64 then some ((n : Int), rest) else none
    | none => none

/-- Translate a JSON string escape character; unicode escapes are
outside this model (no claim exercises them). -/
def jsonEscape (e : Nat) : Option Nat :=
  if e = 34 then some 34
  else if e = 92 then some 92
  else if e = 47 then some 47
  else if e = 98 then some 8
  else if e = 102 then some 12
  else if e = 110 then some 10
  else if e = 114 then some 13
  else if e = 116 then some 9
  else none

/-- Parse the body of a JSON string after the opening quote; raw
control bytes below 0x20 are rejected as serde_json rejects them. -/
def parseJStr : List Nat → Option (List Nat × List Nat)
  | [] => none
  | 34 :: rest => some ([], rest)
  | 92 :: e :: rest =>
    match jsonEscape e with
    | none => none
    | some c =>
      match parseJStr rest with
      | some (s, r) => some (c :: s, r)
      | none => none
  | c :: rest =>
    if c < 32 then none
    else
      match parseJStr rest with
      | some (s, r) => some (c :: s, r)
      | none => none

mutual

/-- Parse one JSON value (fuel-indexed recursive descent). -/
def pVal : Nat → List Nat → Option (Jval × List Nat)
  | 0, _ => none
  | f + 1, bs =>
    match bs.dropWhile jsonWs with
    | 110 :: 117 :: 108 :: 108 :: r => some (.null, r)
    | 116 :: 114 :: 117 :: 101 :: r => some (.bool true, r)
    | 102 :: 97 :: 108 :: 115 :: 101 :: r => some (.bool false, r)
    | 34 :: r =>
      match parseJStr r with
      | some (s, rest) => some (.str s, rest)
      | none => none
    | 91 :: r =>
      match r.dropWhile jsonWs with
      | 93 :: rest => some (.arr [], rest)
      | _ =>
        match pArrItems f r with
        | some (xs, rest) => some (.arr xs, rest)
        | none => none
    | 123 :: r =>
      match r.dropWhile jsonWs with
      | 125 :: rest => some (.obj [], rest)
      | _ =>
        match pObjItems f r with
        | some (xs, rest) => some (.obj xs, rest)
        | none => none
    | other => parseNum other |>.map (fun x => (.num x.1, x.2))

/-- Parse the comma-separated items of a non-empty JSON array up to the
closing bracket. -/
def pArrItems : Nat → List Nat → Option (List Jval × List Nat)
  | 0, _ => none
  | f + 1, bs =>
    match pVal f bs with
    | none => none
    | some (v, rest) =>
      match rest.dropWhile jsonWs with
      | 44 :: r2 =>
        match pArrItems f r2 with
        | some (xs, rest2) => some (v :: xs, rest2)
        | none => none
      | 93 :: r2 => some ([v], r2)
      | _ => none

/-- Parse the members of a non-empty JSON object up to the closing
brace. -/
def pObjItems : Nat → List Nat → Option (List (List Nat × Jval) × List Nat)
  | 0, _ => none
  | f + 1, bs =>
    match bs.dropWhile jsonWs with
    | 34 :: r =>
      match parseJStr r with
      | none => none
      | some (k, rest) =>
        match rest.dropWhile jsonWs with
        | 58 :: r2 =>
          match pVal f r2 with
          | none => none
          | some (v, rest2) =>
            match rest2.dropWhile jsonWs with
            | 44 :: r3 =>
              match pObjItems f r3 with
              | some (xs, rest3) => some ((k, v) :: xs, rest3)
              | none => none
            | 125 :: r3 => some ([(k, v)], r3)
            | _ => none
        | _ => none
    | _ => none

end

/-- Association lookup in a parsed JSON object (serde takes fields by
name in any order; this model reads the first occurrence of a name). -/
def jlookup (fields : List (List Nat × Jval)) (k : List Nat) : Option Jval :=
  match fields.find? (fun f => f.1 == k) with
  | some f => some f.2
  | none => none

/-- Deserialize a required u64 field from JSON. -/
def jU64 : Option Jval → Option Nat
  | some (.num i) => if 0 ≤ i ∧ i < (U64 : Int) then some i.toNat else none
  | _ => none

/-- Deserialize a required String field from JSON. -/
def jStr : Option Jval → Option (List Nat)
  | some (.str s) => some s
  | _ => none

/-- Deserialize an Option u64 field carrying serde(default): a missing
field or null is none. -/
def jOptU64 : Option Jval → Option (Option Nat)
  | none => some none
  | some .null => some none
  | some (.num i) => if 0 ≤ i ∧ i < (U64 : Int) then some (some i.toNat) else none
  | _ => none

/-- Deserialize an Option String field carrying serde(default). -/
def jOptStr : Option Jval → Option (Option (List Nat))
  | none => some none
  | some .null => some none
  | some (.str s) => some (some s)
  | _ => none

/-- Deserialize the Vec of String args field carrying serde(default). -/
def jStrList : Option Jval → Option (List (List Nat))
  | none => some []
  | some (.arr xs) =>
    xs.mapM (fun v =>
      match v with
      | .str s => some s
      | _ => none)
  | _ => none

/-- Deserialize an Action from a JSON value: an internally tagged
object whose type field selects the variant (serde_json supports
deserialize_any, so the internally tagged enum works on this path). -/
def jvalToAction (v : Jval) : Option Action :=
  match v with
  | .obj fields =>
    match jlookup fields (ascii "type") with
    | some (.str t) =>
      if t = ascii "noop" then some .noop
      else if t = ascii "exec" then
        match jStr (jlookup fields (ascii "cmd")),
            jStrList (jlookup fields (ascii "args")),
            jOptU64 (jlookup fields (ascii "timeout_ms")) with
        | some cmd, some args, some tm => some (.exec cmd args tm)
        | _, _, _ => none
      else if t = ascii "http" then
        match jStr (jlookup fields (ascii "url")),
            jOptStr (jlookup fields (ascii "method")),
            jOptStr (jlookup fields (ascii "body")),
            jOptU64 (jlookup fields (ascii "timeout_ms")) with
        | some url, some m, some b, some tm => some (.http url m b tm)
        | _, _, _, _ => none
      else if t = ascii "kv_put" then
        match jStr (jlookup fields (ascii "key")),
            jStr (jlookup fields (ascii "decode")),
            jlookup fields (ascii "value") with
        | some k, some d, some value => some (.kvPut k d value)
        | _, _, _ => none
      else if t = ascii "kv_del" then
        match jStr (jlookup fields (ascii "key")) with
        | some k => some (.kvDel k)
        | none => none
      else none
    | _ => none
  | _ => none

/-- Deserialize a JobSpec from a JSON value. -/
def jvalToJobSpec (v : Jval) : Option JobSpec :=
  match v with
  | .obj fields =>
    match jU64 (jlookup fields (ascii "period_ms")),
        (jlookup fields (ascii "action")).bind jvalToAction with
    | some p, some a => some ⟨p, a⟩
    | _, _ => none
  | _ => none

/-- Model of serde_json::from_str::JobSpec over the UTF-8 bytes of the
string: parse one JSON value and require only whitespace after it. -/
def jsonToJobSpec (s : List Nat) : Option JobSpec :=
  match pVal (s.length + 1) s with
  | some (v, rest) =>
    if rest.dropWhile jsonWs = [] then jvalToJobSpec v else none
  | none => none

/-- Option-valued get_t at JobSpec, the ok-flatten pattern of
scheduler.rs line 45: a decode error degrades to none. -/
def tryGetJobSpec (st : Store) (k : List Nat) : Option JobSpec :=
  match getTJobSpec st k with
  | .ok (some v) => some v
  | _ => none

/-- Option-valued get_t at LegacySpec, the if-let Ok-Some pattern of
scheduler.rs line 47. -/
def tryGetLegacy (st : Store) (k : List Nat) : Option LegacySpec :=
  match getTLegacy st k with
  | .ok (some v) => some v
  | _ => none

/-- Option-valued get_t at String, scheduler.rs line 56. -/
def tryGetStr (st : Store) (k : List Nat) : Option (List Nat) :=
  match getTStr st k with
  | .ok (some v) => some v
  | _ => none

/-- Option-valued get_t at JobState, scheduler.rs line 84. -/
def tryGetJobState (st : Store) (k : List Nat) : Option JobState :=
  match getTJobState st k with
  | .ok (some v) => some v
  | _ => none

/-- Option-valued get_t at Vec of String, web.rs registry reads. -/
def tryGetVecStr (st : Store) (k : List Nat) : Option (List (List Nat)) :=
  match getTVecStr st k with
  | .ok (some v) => some v
  | _ => none

/-- The legacy cmd table of scheduler.rs lines 48..51: the noop arm
maps to Action::Noop and the wildcard arm warns and also maps to
Action::Noop. -/
def mapLegacyCmd (cmd : List Nat) : Action :=
  if cmd = ascii "noop" then .noop else .noop

/-- Wrap a legacy spec with its period, scheduler.rs line 52. -/
def legacyToSpec (l : LegacySpec) : JobSpec := ⟨l.period_ms, mapLegacyCmd l.cmd⟩

/-- Spec resolution, scheduler.rs lines 45..59: current JobSpec, else
LegacySpec through the cmd table, else a stored String parsed as JSON;
the first stage to succeed wins. -/
def resolveSpec (st : Store) (k : List Nat) : Option JobSpec :=
  (tryGetJobSpec st k) <|>
    ((tryGetLegacy st k).map legacyToSpec) <|>
      ((tryGetStr st k).bind jsonToJobSpec)

/-- The effective polling period, scheduler.rs line 66: the backoff
when one is active, else the spec period. -/
def effectivePeriod (spec : JobSpec) (s : JobState) : Nat :=
  if s.backoff_ms > 0 then s.backoff_ms else spec.period_ms

/-- One synchronous pass over the registry ids inside one tick,
scheduler.rs lines 41..103: resolve the spec (no spec skips the id),
read the state with a fatal decode error, test due-ness with saturating
subtraction, and dispatch when a semaphore permit is free, threading
the free permit count.  Returns the dispatched id and spec pairs in
registry order together with the remaining free permits. -/
def dispatchIds (st : Store) (now : Nat) :
    List (List Nat) → Nat → Except Unit (List (List Nat × JobSpec) × Nat)
  | [], free => .ok ([], free)
  | id :: rest, free =>
    match resolveSpec st (specKey id) with
    | none => dispatchIds st now rest free
    | some spec =>
      match getTJobState st (stateKey id) with
      | .error e => .error e
      | .ok stOpt =>
        let state := stOpt.getD {}
        let eff := effectivePeriod spec state
        if now - state.last_run_ms ≥ eff then
          if free = 0 then dispatchIds st now rest free
          else
            match dispatchIds st now rest (free - 1) with
            | .error e => .error e
            | .ok (ds, fr) => .ok ((id, spec) :: ds, fr)
        else dispatchIds st now rest free

/-- One tick of the scheduler loop, scheduler.rs lines 37..103: the
registry read propagates its decode error with the question mark
operator, a missing registry defaults to the empty list. -/
def tick (st : Store) (now free : Nat) :
    Except Unit (List (List Nat × JobSpec) × Nat) :=
  match getTVecStr st regKey with
  | .error e => .error e
  | .ok idsOpt => dispatchIds st now (idsOpt.getD []) free

/-- Default max_backoff_ms fixed by Scheduler::new. -/
def maxBackoffMsDefault : Nat := 60000

/-- The state written after one completed execution, scheduler.rs lines
85..100: last_run_ms is set to the time at completion, then success
increments runs saturating and zeroes failures and backoff, and failure
increments failures saturating and sets backoff to the doubled maximum
of the old backoff and the spec period, saturating, capped at
max_backoff_ms. -/
def applyOutcome (ok : Bool) (periodMs cap nowC : Nat) (s : JobState) : JobState :=
  if ok then
    { last_run_ms := nowC, runs := satAdd s.runs 1, failures := 0, backoff_ms := 0 }
  else
    { last_run_ms := nowC, runs := s.runs, failures := satAdd s.failures 1,
      backoff_ms := min (satMul (max s.backoff_ms periodMs) 2) cap }

/-- The completion path of a dispatched execution, scheduler.rs lines
81..102: re-read the state at completion with the ok-flatten-default
pattern, apply the outcome, and write the state back (the write error
is discarded with let underscore). -/
def completeJob (st : Store) (id : List Nat) (spec : JobSpec) (cap nowC : Nat)
    (ok : Bool) : Store :=
  let s := (tryGetJobState st (stateKey id)).getD {}
  putTJobState st (stateKey id) (applyOutcome ok spec.period_ms cap nowC s)

/-- Execution errors, one constructor per bail or context message of
runner.rs. -/
inductive ExecErr where
  | valueMustBeString : ExecErr
  | valueMustBeNumber : ExecErr
  | outOfRange : ExecErr
  | unknownDecode : List Nat → ExecErr
  | execTimeout : ExecErr
  | execExit : Option Int → ExecErr
  | httpNotImplemented : ExecErr
deriving DecidableEq

/-- Execute one job action against the store, runner.rs.  Process
spawning for Exec depends on the operating system, so its outcome is
supplied as the procRes argument; every other arm is modelled from the
source.  The result carries the store after the action's writes. -/
def execute (a : Action) (st : Store) (procRes : Except ExecErr Unit) :
    Except ExecErr Store :=
  match a with
  | .noop => .ok st
  | .kvPut key decode value =>
    if decode = ascii "utf8" ∨ decode = ascii "raw" then
      match value.asStr with
      | some s => .ok (st.put key s)
      | none => .error .valueMustBeString
    else if decode = ascii "string" then
      match value.asStr with
      | some s => .ok (putTStr st key s)
      | none => .error .valueMustBeString
    else if decode = ascii "u32" then
      match value.asU64 with
      | some n => if n < U32 then .ok (putTU32 st key n) else .error .outOfRange
      | none => .error .valueMustBeNumber
    else if decode = ascii "u64" then
      match value.asU64 with
      | some n => .ok (putTU64 st key n)
      | none => .error .valueMustBeNumber
    else .error (.unknownDecode decode)
  | .kvDel key => .ok (st.del key)
  | .exec _ _ _ =>
    match procRes with
    | .ok _ => .ok st
    | .error e => .error e
  | .http _ _ _ _ => .error .httpNotImplemented

/-- The web upsert payload, web.rs JobUpsertEither: the untagged enum
holds either the legacy triple or an id with a new-format spec. -/
inductive UpsertPayload where
  | legacy : List Nat → List Nat → Nat → UpsertPayload
  | new : List Nat → JobSpec → UpsertPayload

/-- The id of an upsert payload. -/
def UpsertPayload.id : UpsertPayload → List Nat
  | .legacy i _ _ => i
  | .new i _ => i

/-- The jobs_upsert handler of web.rs lines 225..245: read the registry
with the ok-flatten-default pattern, append the id when absent, write
the registry back, then write the spec in the payload's format.  Write
errors are discarded with let underscore. -/
def jobsUpsert (st : Store) (p : UpsertPayload) : Store :=
  let ids := (tryGetVecStr st regKey).getD []
  let ids := if p.id ∈ ids then ids else ids ++ [p.id]
  let st1 := putTVecStr st regKey ids
  match p with
  | .legacy i cmd period => putTLegacy st1 (specKey i) ⟨cmd, period⟩
  | .new i spec => putTJobSpec st1 (specKey i) spec

/-- The upsert_job helper of the scanner CLI (bins/scanner/src/main.rs):
read the registry with the question mark operator, append the id and
write the registry back only when the id is new, write the spec, and
reset the state to the default, its comment reading reset state to
start fresh. -/
def upsert_job (st : Store) (id : List Nat) (spec : JobSpec) :
    Except Unit Store :=
  match getTVecStr st regKey with
  | .error e => .error e
  | .ok idsOpt =>
    let ids := idsOpt.getD []
    let st1 := if id ∈ ids then st else putTVecStr st regKey (ids ++ [id])
    let st2 := putTJobSpec st1 (specKey id) spec
    .ok (putTJobState st2 (stateKey id) {})

/-- The jobs_delete handler of web.rs lines 247..254: retain the other
ids, write the registry back, and delete the spec and state keys. -/
def jobsDelete (st : Store) (id : List Nat) : Store :=
  let ids := (tryGetVecStr st regKey).getD []
  let st1 := putTVecStr st regKey (ids.filter (fun i => i ≠ id))
  (st1.del (specKey id)).del (stateKey id)

/-- The hex digit table of store.rs hex_digit: 0..9 to the digit
characters, 10..15 to lowercase letters, and the unreachable wildcard
to the question mark character. -/
def hexDigit (n : Nat) : Nat :=
  if n ≤ 9 then 48 + n
  else if n ≤ 15 then 87 + n
  else 63

/-- The two hex characters of one key byte, store.rs path_for: high
nibble then low nibble, each masked to four bits. -/
def hexPair (b : Nat) : List Nat :=
  [hexDigit ((b >>> 4) &&& 15), hexDigit (b &&& 15)]

/-- The hex file name a key maps to, store.rs path_for. -/
def hexName (key : List Nat) : List Nat := key.flatMap hexPair

/-- The physical path of a key: the store root, the path separator,
then the hex file name (PathBuf::join of the relative file name). -/
def pathFor (root key : List Nat) : List Nat := root ++ 47 :: hexName key

/-- State of the dispatch semaphore and in-flight executions: free
permits and running execution count. -/
structure SemState where
  free : Nat
  running : Nat
deriving DecidableEq

/-- Events of the concurrency model: a dispatch that acquires one
permit (try_acquire_owned success, scheduler.rs line 71), a skip of a
due job when the semaphore is saturated (the Err arm of line 73), and
the completion of an execution which drops its permit after the state
update in both outcome arms (line 101). -/
inductive SemEv where
  | dispatch : SemEv
  | skipSat : SemEv
  | complete : Bool → SemEv

/-- One transition of the concurrency model. -/
inductive SemStep : SemState → SemEv → SemState → Prop where
  | dispatch (f r : Nat) : SemStep ⟨f + 1, r⟩ .dispatch ⟨f, r + 1⟩
  | skipSat (r : Nat) : SemStep ⟨0, r⟩ .skipSat ⟨0, r⟩
  | complete (f r : Nat) (ok : Bool) : SemStep ⟨f, r + 1⟩ (.complete ok) ⟨f + 1, r⟩

/-- Reachability along a list of events from a start state. -/
inductive SemReach : SemState → List SemEv → SemState → Prop where
  | nil (s : SemState) : SemReach s [] s
  | cons {s t u : SemState} {e : SemEv} {evs : List SemEv} :
      SemStep s e t → SemReach t evs u → SemReach s (e :: evs) u

/-- The initial semaphore state: Semaphore::new(max_concurrency) and no
execution in flight. -/
def semInit (cap : Nat) : SemState := ⟨cap, 0⟩

/-! Helper lemmas. -/

theorem readLE_leBytes (k : Nat) :
    ∀ (n : Nat) (rest : List Nat), n < 256 ^ k →
      readLE k (leBytes k n ++ rest) = some (n, rest) := by
  induction k with
  | zero =>
    intro n rest h
    simp only [pow_zero, Nat.lt_one_iff] at h
    subst h
    rfl
  | succ k ih =>
    intro n rest h
    have hdiv : n / 256 < 256 ^ k := by
      rw [Nat.div_lt_iff_lt_mul (by norm_num)]
      calc n < 256 ^ (k + 1) := h
      _ = 256 ^ k * 256 := by ring
    simp only [leBytes, List.cons_append, readLE, List.append_eq]
    rw [ih (n / 256) rest hdiv]
    show some (n % 256 + 256 * (n / 256), rest) = some (n, rest)
    rw [Nat.mod_add_div]

theorem readU64_encU64 (n : Nat) (rest : List Nat) (h : n < U64) :
    readU64 (encU64 n ++ rest) = some (n, rest) := by
  have : U64 = 256 ^ 8 := by norm_num [U64]
  exact readLE_leBytes 8 n rest (this ▸ h)

theorem readJobState_encJobState (s : JobState) (rest : List Nat) (h : s.wf) :
    readJobState (encJobState s ++ rest) = some (s, rest) := by
  obtain ⟨h1, h2, h3, h4⟩ := h
  simp only [readJobState, encJobState, List.append_assoc,
    readU64_encU64 _ _ h1, readU64_encU64 _ _ h2, readU64_encU64 _ _ h3,
    readU64_encU64 _ _ h4]

theorem readStr_encStr (s : List Nat) (rest : List Nat)
    (hlen : s.length < U64) (hutf : validUtf8 s) :
    readStr (encStr s ++ rest) = some (s, rest) := by
  simp only [readStr, encStr, List.append_assoc, readU64_encU64 _ _ hlen]
  rw [List.take_left, List.drop_left]
  simp [hutf]

theorem store_get_put_same (st : Store) (k v : List Nat) :
    (st.put k v) k = some v := by
  simp [Store.put]

theorem store_get_put_ne (st : Store) (k v q : List Nat) (h : q ≠ k) :
    (st.put k v) q = st q := by
  simp [Store.put, h]

theorem stateKey_append (id : List Nat) :
    stateKey id = (ascii "jobs" ++ 58 :: id) ++ ascii ":state" := by
  simp [stateKey, nskey]

theorem specKey_append (id : List Nat) :
    specKey id = (ascii "jobs" ++ 58 :: id) ++ ascii ":spec" := by
  simp [specKey, nskey]

theorem stateKey_ne_specKey (id : List Nat) : stateKey id ≠ specKey id := by
  intro h
  have := congrArg List.length h
  simp [stateKey, specKey, nskey, ascii] at this

theorem stateKey_ne_regKey (id : List Nat) : stateKey id ≠ regKey := by
  intro h
  have := congrArg List.getLast? h
  rw [stateKey_append, List.getLast?_append_of_ne_nil _ (by simp [ascii])] at this
  simp [ascii, regKey, nskey] at this

theorem dispatchIds_sound (st : Store) (now : Nat) :
    ∀ (ids : List (List Nat)) (free : Nat) (ds : List (List Nat × JobSpec)) (fr : Nat),
      dispatchIds st now ids free = .ok (ds, fr) →
      ∀ p ∈ ds, p.1 ∈ ids ∧ resolveSpec st (specKey p.1) = some p.2 ∧
        ∃ stOpt, getTJobState st (stateKey p.1) = .ok stOpt ∧
          effectivePeriod p.2 (stOpt.getD {}) ≤ now - (stOpt.getD {}).last_run_ms := by
  intro ids
  induction ids with
  | nil =>
    intro free ds fr h p hp
    simp only [dispatchIds] at h
    cases h
    simp at hp
  | cons id rest ih =>
    intro free ds fr h p hp
    simp only [dispatchIds] at h
    cases hres : resolveSpec st (specKey id) with
    | none =>
      rw [hres] at h
      have := ih free ds fr h p hp
      exact ⟨List.mem_cons_of_mem _ this.1, this.2⟩
    | some spec =>
      rw [hres] at h
      cases hst : getTJobState st (stateKey id) with
      | error e => rw [hst] at h; cases h
      | ok stOpt =>
        rw [hst] at h
        simp only at h
        by_cases hdue : now - (stOpt.getD {}).last_run_ms ≥ effectivePeriod spec (stOpt.getD {})
        · rw [if_pos hdue] at h
          by_cases hfree : free = 0
          · rw [if_pos hfree] at h
            have := ih free ds fr h p hp
            exact ⟨List.mem_cons_of_mem _ this.1, this.2⟩
          · rw [if_neg hfree] at h
            cases hrec : dispatchIds st now rest (free - 1) with
            | error e => rw [hrec] at h; cases h
            | ok x =>
              obtain ⟨ds2, fr2⟩ := x
              rw [hrec] at h
              cases h
              rcases List.mem_cons.mp hp with heq | hmem
              · subst heq
                exact ⟨List.mem_cons_self _ _, hres, stOpt, hst, hdue⟩
              · have := ih (free - 1) _ _ hrec p hmem
                exact ⟨List.mem_cons_of_mem _ this.1, this.2⟩
        · rw [if_neg hdue] at h
          have := ih free ds fr h p hp
          exact ⟨List.mem_cons_of_mem _ this.1, this.2⟩

theorem dispatchIds_complete (st : Store) (now : Nat) :
    ∀ (ids : List (List Nat)) (free : Nat) (id : List Nat) (spec : JobSpec)
      (stOpt : Option JobState) (ds : List (List Nat × JobSpec)) (fr : Nat),
      ids.length ≤ free →
      id ∈ ids →
      resolveSpec st (specKey id) = some spec →
      getTJobState st (stateKey id) = .ok stOpt →
      effectivePeriod spec (stOpt.getD {}) ≤ now - (stOpt.getD {}).last_run_ms →
      dispatchIds st now ids free = .ok (ds, fr) →
      (id, spec) ∈ ds := by
  intro ids
  induction ids with
  | nil =>
    intro free id spec stOpt ds fr _ hmem
    simp at hmem
  | cons a rest ih =>
    intro free id spec stOpt ds fr hlen hmem hres hst hdue h
    simp only [dispatchIds] at h
    have hfree : free ≠ 0 := by simp at hlen; omega
    have hlen2 : rest.length ≤ free - 1 := by simp at hlen; omega
    have hlen3 : rest.length ≤ free := by simp at hlen; omega
    rcases List.mem_cons.mp hmem with heq | hmem2
    · subst heq
      rw [hres, hst] at h
      simp only at h
      rw [if_pos hdue, if_neg hfree] at h
      cases hrec : dispatchIds st now rest (free - 1) with
      | error e => rw [hrec] at h; cases h
      | ok x =>
        obtain ⟨ds2, fr2⟩ := x
        rw [hrec] at h
        cases h
        exact List.mem_cons_self _ _
    · cases hresa : resolveSpec st (specKey a) with
      | none =>
        rw [hresa] at h
        exact ih free id spec stOpt ds fr hlen3 hmem2 hres hst hdue h
      | some speca =>
        rw [hresa] at h
        cases hsta : getTJobState st (stateKey a) with
        | error e => rw [hsta] at h; cases h
        | ok stOpta =>
          rw [hsta] at h
          simp only at h
          by_cases hduea :
            now - (stOpta.getD {}).last_run_ms ≥ effectivePeriod speca (stOpta.getD {})
          · rw [if_pos hduea, if_neg hfree] at h
            cases hrec : dispatchIds st now rest (free - 1) with
            | error e => rw [hrec] at h; cases h
            | ok x =>
              obtain ⟨ds2, fr2⟩ := x
              rw [hrec] at h
              cases h
              exact List.mem_cons_of_mem _
                (ih (free - 1) id spec stOpt _ _ hlen2 hmem2 hres hst hdue hrec)
          · rw [if_neg hduea] at h
            exact ih free id spec stOpt ds fr hlen3 hmem2 hres hst hdue h

theorem dispatchIds_permits (st : Store) (now : Nat) :
    ∀ (ids : List (List Nat)) (free : Nat) (ds : List (List Nat × JobSpec)) (fr : Nat),
      dispatchIds st now ids free = .ok (ds, fr) → ds.length + fr = free := by
  intro ids
  induction ids with
  | nil =>
    intro free ds fr h
    simp only [dispatchIds] at h
    cases h
    simp
  | cons a rest ih =>
    intro free ds fr h
    simp only [dispatchIds] at h
    cases hresa : resolveSpec st (specKey a) with
    | none =>
      rw [hresa] at h
      exact ih free ds fr h
    | some speca =>
      rw [hresa] at h
      cases hsta : getTJobState st (stateKey a) with
      | error e => rw [hsta] at h; cases h
      | ok stOpta =>
        rw [hsta] at h
        simp only at h
        by_cases hduea :
          now - (stOpta.getD {}).last_run_ms ≥ effectivePeriod speca (stOpta.getD {})
        · rw [if_pos hduea] at h
          by_cases hfree : free = 0
          · rw [if_pos hfree] at h
            exact ih free ds fr h
          · rw [if_neg hfree] at h
            cases hrec : dispatchIds st now rest (free - 1) with
            | error e => rw [hrec] at h; cases h
            | ok x =>
              obtain ⟨ds2, fr2⟩ := x
              rw [hrec] at h
              cases h
              have := ih (free - 1) _ _ hrec
              simp only [List.length_cons]
              omega
        · rw [if_neg hduea] at h
          exact ih free ds fr h

theorem dispatchIds_skip (st : Store) (now : Nat) (id : List Nat)
    (hres : resolveSpec st (specKey id) = none) :
    ∀ (ids1 ids2 : List (List Nat)) (free : Nat),
      dispatchIds st now (ids1 ++ id :: ids2) free =
        dispatchIds st now (ids1 ++ ids2) free := by
  intro ids1
  induction ids1 with
  | nil =>
    intro ids2 free
    simp only [List.nil_append, dispatchIds, hres]
  | cons a rest ih =>
    intro ids2 free
    simp only [List.cons_append, dispatchIds]
    cases hresa : resolveSpec st (specKey a) with
    | none => exact ih ids2 free
    | some speca =>
      cases hsta : getTJobState st (stateKey a) with
      | error e => rfl
      | ok stOpta =>
        simp only
        by_cases hduea :
          now - (stOpta.getD {}).last_run_ms ≥ effectivePeriod speca (stOpta.getD {})
        · rw [if_pos hduea, if_pos hduea]
          by_cases hfree : free = 0
          · rw [if_pos hfree, if_pos hfree]
            exact ih ids2 free
          · rw [if_neg hfree, if_neg hfree]
            simp only [List.append_eq]
            rw [ih ids2 (free - 1)]
        · rw [if_neg hduea, if_neg hduea]
          exact ih ids2 free

theorem U64_pos : 0 < U64 := by norm_num [U64]

theorem semStep_inv {cap : Nat} {s t : SemState} {e : SemEv}
    (hstep : SemStep s e t) (hinv : s.free + s.running = cap) :
    t.free + t.running = cap := by
  cases hstep <;> simp_all <;> omega

theorem semReach_inv {cap : Nat} {s : SemState} {evs : List SemEv} {t : SemState}
    (h : SemReach s evs t) (hinv : s.free + s.running = cap) :
    t.free + t.running = cap := by
  induction h with
  | nil => exact hinv
  | cons hstep _ ih => exact ih (semStep_inv hstep hinv)

theorem readJobState_enc_nil (s : JobState) (h : s.wf) :
    readJobState (encJobState s) = some (s, []) := by
  have := readJobState_encJobState s [] h
  simpa using this

theorem tryGetJobState_of_blob (st : Store) (k : List Nat) (s : JobState)
    (hwf : s.wf) (hblob : st k = some (encJobState s)) :
    tryGetJobState st k = some s := by
  simp only [tryGetJobState, getTJobState, hblob, readJobState_enc_nil s hwf]

theorem tryGetJobState_putTJobState (st : Store) (k : List Nat) (s : JobState)
    (h : s.wf) : tryGetJobState (putTJobState st k s) k = some s := by
  simp only [tryGetJobState, getTJobState, putTJobState, store_get_put_same,
    readJobState_enc_nil s h]

theorem applyOutcome_wf (ok : Bool) (p cap nowC : Nat) (s : JobState)
    (hwf : s.wf) (hnow : nowC < U64) : (applyOutcome ok p cap nowC s).wf := by
  have hpos : 0 < U64 := U64_pos
  obtain ⟨h1, h2, h3, h4⟩ := hwf
  cases ok <;> simp [applyOutcome, JobState.wf, satAdd, satMul] <;> omega

/-- C2: for every completed execution of a dispatched job, the state
written by the completion path of Scheduler::spawn sets, on success,
runs to runs plus one saturating, failures to zero, backoff_ms to zero
and last_run_ms to the completion time, and, on failure, failures to
failures plus one saturating, backoff_ms to the minimum of the
saturating product of two with the maximum of backoff_ms and the spec
period and of max_backoff_ms, and last_run_ms to the completion
time. -/
theorem completed_execution_state_update (st : Store) (id : List Nat)
    (spec : JobSpec) (cap nowC : Nat) (s : JobState) (hwf : s.wf)
    (hnow : nowC < U64)
    (hblob : st.get (stateKey id) = some (encJobState s)) :
    tryGetJobState (completeJob st id spec cap nowC true) (stateKey id) =
      some { last_run_ms := nowC, runs := min (s.runs + 1) (U64 - 1),
             failures := 0, backoff_ms := 0 } ∧
    tryGetJobState (completeJob st id spec cap nowC false) (stateKey id) =
      some { last_run_ms := nowC, runs := s.runs,
             failures := min (s.failures + 1) (U64 - 1),
             backoff_ms := min (min (max s.backoff_ms spec.period_ms * 2) (U64 - 1)) cap } := by
  have hold : tryGetJobState st (stateKey id) = some s :=
    tryGetJobState_of_blob st (stateKey id) s hwf hblob
  constructor
  · simp only [completeJob, hold, Option.getD_some]
    rw [tryGetJobState_putTJobState _ _ _ (applyOutcome_wf true _ _ _ _ hwf hnow)]
    simp [applyOutcome, satAdd]
  · simp only [completeJob, hold, Option.getD_some]
    rw [tryGetJobState_putTJobState _ _ _ (applyOutcome_wf false _ _ _ _ hwf hnow)]
    simp [applyOutcome, satAdd, satMul]

/-- Witness for C2 at a concrete store and state. -/
theorem completed_execution_state_update_witness :
    (JobState.wf ⟨1, 2, 3, 4⟩ ∧ 99 < U64) ∧
    (tryGetJobState
        (completeJob (Store.empty.put (stateKey (ascii "j")) (encJobState ⟨1, 2, 3, 4⟩))
          (ascii "j") ⟨50, .noop⟩ 60000 99 true) (stateKey (ascii "j")) =
      some { last_run_ms := 99, runs := min (2 + 1) (U64 - 1),
             failures := 0, backoff_ms := 0 } ∧
     tryGetJobState
        (completeJob (Store.empty.put (stateKey (ascii "j")) (encJobState ⟨1, 2, 3, 4⟩))
          (ascii "j") ⟨50, .noop⟩ 60000 99 false) (stateKey (ascii "j")) =
      some { last_run_ms := 99, runs := 2,
             failures := min (3 + 1) (U64 - 1),
             backoff_ms := min (min (max 4 50 * 2) (U64 - 1)) 60000 }) :=
  ⟨⟨⟨by decide, by decide, by decide, by decide⟩, by decide⟩,
    completed_execution_state_update
      (Store.empty.put (stateKey (ascii "j")) (encJobState ⟨1, 2, 3, 4⟩))
      (ascii "j") ⟨50, .noop⟩ 60000 99 ⟨1, 2, 3, 4⟩
      ⟨by decide, by decide, by decide, by decide⟩ (by decide) rfl⟩

/-- One failure update applied n times without an intervening
success. -/
def iterFail (p cap nowC : Nat) : Nat → JobState → JobState
  | 0, s => s
  | n + 1, s => iterFail p cap nowC n (applyOutcome false p cap nowC s)

theorem failBackoff_step (p cap nowC : Nat) (s : JobState)
    (hb : s.backoff_ms ≤ cap) (hu : s.backoff_ms < U64) :
    s.backoff_ms ≤ (applyOutcome false p cap nowC s).backoff_ms ∧
    (applyOutcome false p cap nowC s).backoff_ms ≤ cap ∧
    (applyOutcome false p cap nowC s).backoff_ms < U64 := by
  have hpos : 0 < U64 := U64_pos
  simp [applyOutcome, satMul]
  omega

/-- C6: across any sequence of consecutive failing executions without
an intervening success, the persisted backoff is monotonically
non-decreasing and never exceeds max_backoff_ms, and a success resets
it to zero. -/
theorem backoff_monotone_capped (p cap nowC : Nat) (s : JobState)
    (hb : s.backoff_ms ≤ cap) (hu : s.backoff_ms < U64) :
    (∀ n, (iterFail p cap nowC n s).backoff_ms ≤
        (iterFail p cap nowC (n + 1) s).backoff_ms ∧
      (iterFail p cap nowC (n + 1) s).backoff_ms ≤ cap) ∧
    (applyOutcome true p cap nowC s).backoff_ms = 0 := by
  constructor
  · have main : ∀ (n : Nat) (t : JobState), t.backoff_ms ≤ cap → t.backoff_ms < U64 →
        (iterFail p cap nowC n t).backoff_ms ≤ (iterFail p cap nowC (n + 1) t).backoff_ms ∧
        (iterFail p cap nowC (n + 1) t).backoff_ms ≤ cap ∧
        (iterFail p cap nowC (n + 1) t).backoff_ms < U64 := by
      intro n
      induction n with
      | zero =>
        intro t htb htu
        simpa [iterFail] using failBackoff_step p cap nowC t htb htu
      | succ m ih =>
        intro t htb htu
        have hstep := failBackoff_step p cap nowC t htb htu
        have := ih (applyOutcome false p cap nowC t) hstep.2.1 hstep.2.2
        simpa [iterFail] using this
    intro n
    exact ⟨(main n s hb hu).1, (main n s hb hu).2.1⟩
  · simp [applyOutcome]

/-- Witness for C6 at a concrete state. -/
theorem backoff_monotone_capped_witness :
    ((4 : Nat) ≤ 60000 ∧ (4 : Nat) < U64) ∧
    ((∀ n, (iterFail 50 60000 99 n ⟨1, 2, 3, 4⟩).backoff_ms ≤
        (iterFail 50 60000 99 (n + 1) ⟨1, 2, 3, 4⟩).backoff_ms ∧
      (iterFail 50 60000 99 (n + 1) ⟨1, 2, 3, 4⟩).backoff_ms ≤ 60000) ∧
    (applyOutcome true 50 60000 99 ⟨1, 2, 3, 4⟩).backoff_ms = 0) :=
  ⟨⟨by decide, by decide⟩,
    backoff_monotone_capped 50 60000 99 ⟨1, 2, 3, 4⟩ (by decide) (by decide)⟩

theorem execute_raw_eq (st : Store) (key : List Nat) (v : Jval)
    (pr : Except ExecErr Unit) :
    execute (.kvPut key (ascii "raw") v) st pr =
      match v.asStr with
      | some s => .ok (st.put key s)
      | none => .error .valueMustBeString := by
  simp [execute]

theorem execute_utf8_eq (st : Store) (key : List Nat) (v : Jval)
    (pr : Except ExecErr Unit) :
    execute (.kvPut key (ascii "utf8") v) st pr =
      match v.asStr with
      | some s => .ok (st.put key s)
      | none => .error .valueMustBeString := by
  simp [execute]

theorem execute_string_eq (st : Store) (key : List Nat) (v : Jval)
    (pr : Except ExecErr Unit) :
    execute (.kvPut key (ascii "string") v) st pr =
      match v.asStr with
      | some s => .ok (putTStr st key s)
      | none => .error .valueMustBeString := by
  simp [execute, (by decide : ascii "string" ≠ ascii "utf8"),
    (by decide : ascii "string" ≠ ascii "raw")]

theorem execute_u32_eq (st : Store) (key : List Nat) (v : Jval)
    (pr : Except ExecErr Unit) :
    execute (.kvPut key (ascii "u32") v) st pr =
      match v.asU64 with
      | some n => if n < U32 then .ok (putTU32 st key n) else .error .outOfRange
      | none => .error .valueMustBeNumber := by
  simp [execute, (by decide : ascii "u32" ≠ ascii "utf8"),
    (by decide : ascii "u32" ≠ ascii "raw"), (by decide : ascii "u32" ≠ ascii "string")]

theorem execute_u64_eq (st : Store) (key : List Nat) (v : Jval)
    (pr : Except ExecErr Unit) :
    execute (.kvPut key (ascii "u64") v) st pr =
      match v.asU64 with
      | some n => .ok (putTU64 st key n)
      | none => .error .valueMustBeNumber := by
  simp [execute, (by decide : ascii "u64" ≠ ascii "utf8"),
    (by decide : ascii "u64" ≠ ascii "raw"), (by decide : ascii "u64" ≠ ascii "string"),
    (by decide : ascii "u64" ≠ ascii "u32")]

theorem execute_unknown_eq (st : Store) (key d : List Nat) (v : Jval)
    (pr : Except ExecErr Unit) (h1 : d ≠ ascii "raw") (h2 : d ≠ ascii "utf8")
    (h3 : d ≠ ascii "string") (h4 : d ≠ ascii "u32") (h5 : d ≠ ascii "u64") :
    execute (.kvPut key d v) st pr = .error (.unknownDecode d) := by
  simp only [execute]
  rw [if_neg (fun h => h.elim h2 h1), if_neg h3, if_neg h4, if_neg h5]

/-- C5: KvPut execution dispatches on the decode field: raw and utf8
require a string value and store its raw bytes, string requires a
string and stores it through the typed encoder, u32 and u64 require a
non-negative integral value, u32 additionally rejects values of 32 bits
or more with an out-of-range error (70000 succeeds and 5000000000
fails), and any other decode fails with an unknown-decode error; every
failure case returns an error from execute. -/
theorem kvput_decode_dispatch (st : Store) (key : List Nat) (v : Jval)
    (pr : Except ExecErr Unit) :
    (v.asStr = none →
      execute (.kvPut key (ascii "raw") v) st pr = .error .valueMustBeString ∧
      execute (.kvPut key (ascii "utf8") v) st pr = .error .valueMustBeString ∧
      execute (.kvPut key (ascii "string") v) st pr = .error .valueMustBeString) ∧
    (∀ s, v.asStr = some s →
      execute (.kvPut key (ascii "raw") v) st pr = .ok (st.put key s) ∧
      execute (.kvPut key (ascii "utf8") v) st pr = .ok (st.put key s) ∧
      execute (.kvPut key (ascii "string") v) st pr = .ok (putTStr st key s)) ∧
    (v.asU64 = none →
      execute (.kvPut key (ascii "u32") v) st pr = .error .valueMustBeNumber ∧
      execute (.kvPut key (ascii "u64") v) st pr = .error .valueMustBeNumber) ∧
    (∀ n, v.asU64 = some n →
      (n < U32 → execute (.kvPut key (ascii "u32") v) st pr = .ok (putTU32 st key n)) ∧
      (U32 ≤ n → execute (.kvPut key (ascii "u32") v) st pr = .error .outOfRange) ∧
      execute (.kvPut key (ascii "u64") v) st pr = .ok (putTU64 st key n)) ∧
    (execute (.kvPut key (ascii "u32") (.num 70000)) st pr = .ok (putTU32 st key 70000) ∧
     execute (.kvPut key (ascii "u32") (.num 5000000000)) st pr = .error .outOfRange) ∧
    (∀ d, d ≠ ascii "raw" → d ≠ ascii "utf8" → d ≠ ascii "string" →
      d ≠ ascii "u32" → d ≠ ascii "u64" →
      execute (.kvPut key d v) st pr = .error (.unknownDecode d)) := by
  refine ⟨?_, ?_, ?_, ?_, ⟨?_, ?_⟩, ?_⟩
  · intro h
    rw [execute_raw_eq, execute_utf8_eq, execute_string_eq, h]
    exact ⟨rfl, rfl, rfl⟩
  · intro s h
    rw [execute_raw_eq, execute_utf8_eq, execute_string_eq, h]
    exact ⟨rfl, rfl, rfl⟩
  · intro h
    rw [execute_u32_eq, execute_u64_eq, h]
    exact ⟨rfl, rfl⟩
  · intro n h
    rw [execute_u32_eq, execute_u64_eq, h]
    exact ⟨fun hlt => by simp [hlt], fun hge => by simp [Nat.not_lt_of_ge hge], rfl⟩
  · rw [execute_u32_eq]
    rfl
  · rw [execute_u32_eq]
    rfl
  · intro d h1 h2 h3 h4 h5
    exact execute_unknown_eq st key d v pr h1 h2 h3 h4 h5

/-- Witness for C5 at concrete inputs. -/
theorem kvput_decode_dispatch_witness :
    (Jval.str (ascii "x")).asStr = some (ascii "x") ∧
    execute (.kvPut (ascii "k") (ascii "raw") (.str (ascii "x"))) Store.empty (.ok ()) =
      .ok (Store.empty.put (ascii "k") (ascii "x")) ∧
    execute (.kvPut (ascii "k") (ascii "zzz") (.str (ascii "x"))) Store.empty (.ok ()) =
      .error (.unknownDecode (ascii "zzz")) :=
  ⟨rfl,
    ((kvput_decode_dispatch Store.empty (ascii "k") (.str (ascii "x"))
      (.ok ())).2.1 (ascii "x") rfl).1,
    (kvput_decode_dispatch Store.empty (ascii "k") (.str (ascii "x"))
      (.ok ())).2.2.2.2.2 (ascii "zzz") (by decide) (by decide) (by decide)
      (by decide) (by decide)⟩

/-- Inverse of the hex digit table on its reachable range. -/
def unhexDigit (c : Nat) : Nat := if c ≤ 57 then c - 48 else c - 87

/-- Inverse of hexName: read the bytes back two hex characters at a
time. -/
def hexUnname : List Nat → Option (List Nat)
  | [] => some []
  | hi :: lo :: rest =>
    match hexUnname rest with
    | some bs => some ((16 * unhexDigit hi + unhexDigit lo) :: bs)
    | none => none
  | _ => none

set_option maxRecDepth 4096 in
theorem hexPair_decode :
    ∀ b, b < 256 →
      16 * unhexDigit (hexDigit ((b >>> 4) &&& 15)) + unhexDigit (hexDigit (b &&& 15)) = b := by
  decide

theorem hexUnname_hexName :
    ∀ (k : List Nat), (∀ b ∈ k, b < 256) → hexUnname (hexName k) = some k := by
  intro k
  induction k with
  | nil => intro _; rfl
  | cons b t ih =>
    intro hb
    have hbt : ∀ x ∈ t, x < 256 := fun x hx => hb x (List.mem_cons_of_mem _ hx)
    have hb256 : b < 256 := hb b (List.mem_cons_self _ _)
    have hcons : hexName (b :: t) = hexPair b ++ hexName t := by
      simp [hexName]
    rw [hcons]
    simp only [hexPair, List.cons_append, List.append_eq, List.nil_append, hexUnname]
    rw [ih hbt, hexPair_decode b hb256]

theorem hexName_inj (k1 k2 : List Nat) (h1 : ∀ b ∈ k1, b < 256)
    (h2 : ∀ b ∈ k2, b < 256) (h : hexName k1 = hexName k2) : k1 = k2 := by
  have := hexUnname_hexName k1 h1
  rw [h, hexUnname_hexName k2 h2] at this
  exact (Option.some.injEq _ _ ▸ this).symm

/-- C8: the mapping from a logical key to its physical storage location
is injective: two distinct byte-sequence keys yield distinct file
paths, for arbitrary byte content. -/
theorem pathFor_collision_free (root k1 k2 : List Nat)
    (h1 : ∀ b ∈ k1, b < 256) (h2 : ∀ b ∈ k2, b < 256) (hne : k1 ≠ k2) :
    pathFor root k1 ≠ pathFor root k2 := by
  intro h
  apply hne
  simp only [pathFor] at h
  have h2' := List.append_cancel_left h
  injection h2' with _ h3
  exact hexName_inj k1 k2 h1 h2 h3

/-- Witness for C8 at two concrete keys containing non-printable
bytes. -/
theorem pathFor_collision_free_witness :
    ((∀ b ∈ [0, 255], b < 256) ∧ (∀ b ∈ [0, 15, 16], b < 256) ∧
      [0, 255] ≠ [0, 15, 16]) ∧
    pathFor (ascii "root") [0, 255] ≠ pathFor (ascii "root") [0, 15, 16] :=
  ⟨⟨by decide, by decide, by decide⟩,
    pathFor_collision_free (ascii "root") [0, 255] [0, 15, 16]
      (by decide) (by decide) (by decide)⟩

/-- C10: a present but undecodable registry blob or state blob errors
the tick, which the question mark operator propagates out of the loop
so the scheduler task terminates with the error; an undecodable spec
blob, by contrast, only skips its job and the tick succeeds. -/
theorem malformed_registry_or_state_errors_tick :
    tick (Store.empty.put regKey [1, 2, 3]) 100 4 = .error () ∧
    tick (((Store.empty.put regKey (encVecStr [ascii "j"])).put
        (specKey (ascii "j")) (encLegacy ⟨ascii "noop", 0⟩)).put
        (stateKey (ascii "j")) [7]) 100 4 = .error () ∧
    tick ((Store.empty.put regKey (encVecStr [ascii "j"])).put
        (specKey (ascii "j")) [7]) 100 4 = .ok ([], 4) :=
  ⟨rfl, rfl, rfl⟩

/-- C7: a JobSpec written through the typed put does not resolve back
(every stage of spec resolution fails on its bincode encoding, because
the internally tagged Action cannot be bincode-decoded), while the
legacy round trip does hold: a stored LegacySpec with cmd noop and
period 500 resolves to the JobSpec with period 500 and action Noop. -/
theorem jobspec_roundtrip_fails_legacy_roundtrip_holds :
    resolveSpec (Store.empty.put (specKey (ascii "demo")) (encJobSpec ⟨500, .noop⟩))
      (specKey (ascii "demo")) = none ∧
    resolveSpec (Store.empty.put (specKey (ascii "demo")) (encLegacy ⟨ascii "noop", 500⟩))
      (specKey (ascii "demo")) = some ⟨500, .noop⟩ :=
  ⟨rfl, rfl⟩

/-- A store holding one registered job with a stored legacy spec and a
non-default persisted state. -/
def c1Store : Store :=
  ((Store.empty.put regKey (encVecStr [ascii "j"])).put
      (specKey (ascii "j")) (encLegacy ⟨ascii "noop", 500⟩)).put
    (stateKey (ascii "j")) (encJobState ⟨5, 2, 0, 0⟩)

/-- C1: the web jobs_upsert handler replaces the spec of an existing id
but leaves the persisted JobState untouched, so the state read back is
the pre-existing one and not the all-zero default; the scanner CLI
upsert_job, by contrast, does reset the state to the default. -/
theorem web_upsert_leaves_state_cli_upsert_resets :
    getTJobState (jobsUpsert c1Store (.new (ascii "j") ⟨700, .noop⟩))
      (stateKey (ascii "j")) = .ok (some ⟨5, 2, 0, 0⟩) ∧
    (⟨5, 2, 0, 0⟩ : JobState) ≠ JobState.default ∧
    (jobsUpsert c1Store (.new (ascii "j") ⟨700, .noop⟩)).get (specKey (ascii "j")) =
      some (encJobSpec ⟨700, .noop⟩) ∧
    (upsert_job c1Store (ascii "j") ⟨700, .noop⟩).map
        (fun st2 => getTJobState st2 (stateKey (ascii "j"))) =
      .ok (.ok (some JobState.default)) :=
  ⟨rfl, by decide, rfl, rfl⟩

theorem mapLegacyCmd_eq_noop (cmd : List Nat) : mapLegacyCmd cmd = .noop := by
  unfold mapLegacyCmd
  split <;> rfl

/-- C4: spec resolution tries the three decoders in order, stopping at
the first success: current JobSpec, then LegacySpec with every cmd
(noop or otherwise) mapped to Action::Noop keeping the legacy period,
then a typed string parsed as JSON; when all fail the job is skipped
for the tick with no error raised, it stays in the registry and is
never dispatched, so its state entry is untouched. -/
theorem spec_resolution_order_and_skip :
    (∀ (st : Store) (k : List Nat) (s : JobSpec),
        tryGetJobSpec st k = some s → resolveSpec st k = some s) ∧
    (∀ (st : Store) (k : List Nat) (l : LegacySpec),
        tryGetJobSpec st k = none → tryGetLegacy st k = some l →
        resolveSpec st k = some ⟨l.period_ms, Action.noop⟩) ∧
    (∀ (st : Store) (k : List Nat),
        tryGetJobSpec st k = none → tryGetLegacy st k = none →
        resolveSpec st k = (tryGetStr st k).bind jsonToJobSpec) ∧
    (∀ (st : Store) (now : Nat) (id : List Nat) (ids1 ids2 : List (List Nat)) (free : Nat),
        resolveSpec st (specKey id) = none →
        dispatchIds st now (ids1 ++ id :: ids2) free =
          dispatchIds st now (ids1 ++ ids2) free) ∧
    (∀ (st : Store) (now free : Nat) (id : List Nat)
        (ds : List (List Nat × JobSpec)) (fr : Nat),
        resolveSpec st (specKey id) = none →
        tick st now free = .ok (ds, fr) → ∀ s, (id, s) ∉ ds) ∧
    resolveSpec (Store.empty.put (specKey (ascii "j")) []) (specKey (ascii "j")) = none := by
  refine ⟨?_, ?_, ?_, ?_, ?_, rfl⟩
  · intro st k s h
    simp only [resolveSpec, h]
    rfl
  · intro st k l h1 h2
    simp [resolveSpec, h1, h2, legacyToSpec, mapLegacyCmd_eq_noop]
  · intro st k h1 h2
    simp only [resolveSpec, h1, h2]
    rfl
  · intro st now id ids1 ids2 free h
    exact dispatchIds_skip st now id h ids1 ids2 free
  · intro st now free id ds fr hres htick s hmem
    simp only [tick] at htick
    cases hreg : getTVecStr st regKey with
    | error e => rw [hreg] at htick; cases htick
    | ok idsOpt =>
      rw [hreg] at htick
      have := (dispatchIds_sound st now _ _ _ _ htick (id, s) hmem).2.1
      rw [hres] at this
      cases this

/-- Witness for C4: a legacy blob with a cmd other than noop resolves
through the second stage to Action::Noop. -/
theorem spec_resolution_order_and_skip_witness :
    tryGetJobSpec (Store.empty.put (specKey (ascii "j")) (encLegacy ⟨ascii "other", 250⟩))
      (specKey (ascii "j")) = none ∧
    tryGetLegacy (Store.empty.put (specKey (ascii "j")) (encLegacy ⟨ascii "other", 250⟩))
      (specKey (ascii "j")) = some ⟨ascii "other", 250⟩ ∧
    resolveSpec (Store.empty.put (specKey (ascii "j")) (encLegacy ⟨ascii "other", 250⟩))
      (specKey (ascii "j")) = some ⟨250, Action.noop⟩ :=
  ⟨rfl, rfl,
    spec_resolution_order_and_skip.2.1
      (Store.empty.put (specKey (ascii "j")) (encLegacy ⟨ascii "other", 250⟩))
      (specKey (ascii "j")) ⟨ascii "other", 250⟩ rfl rfl⟩

/-- C3: with the registry decoded and a job's spec resolved and state
read, the tick dispatches the job iff the saturating difference of now
and last_run_ms reaches the effective period (backoff when positive,
else the spec period); the forward direction holds unconditionally, the
reverse holds when enough permits are free for the whole registry; in
particular a clock that moved backward saturates the difference to zero
and a positive effective period is then never due, and a job below its
effective period is never dispatched. -/
theorem due_check_governs_dispatch (st : Store) (now free : Nat)
    (ids : List (List Nat)) (ds : List (List Nat × JobSpec)) (fr : Nat)
    (id : List Nat) (spec : JobSpec) (stOpt : Option JobState)
    (hreg : getTVecStr st regKey = .ok (some ids))
    (htick : tick st now free = .ok (ds, fr))
    (hid : id ∈ ids)
    (hres : resolveSpec st (specKey id) = some spec)
    (hst : getTJobState st (stateKey id) = .ok stOpt) :
    (ids.length ≤ free →
      ((id, spec) ∈ ds ↔
        effectivePeriod spec (stOpt.getD {}) ≤ now - (stOpt.getD {}).last_run_ms)) ∧
    ((id, spec) ∈ ds →
      effectivePeriod spec (stOpt.getD {}) ≤ now - (stOpt.getD {}).last_run_ms) ∧
    (now < (stOpt.getD {}).last_run_ms → 0 < effectivePeriod spec (stOpt.getD {}) →
      (id, spec) ∉ ds) := by
  simp only [tick, hreg, Option.getD_some] at htick
  have hsound : (id, spec) ∈ ds →
      effectivePeriod spec (stOpt.getD {}) ≤ now - (stOpt.getD {}).last_run_ms := by
    intro hmem
    have h := dispatchIds_sound st now ids free ds fr htick (id, spec) hmem
    obtain ⟨_, _, stOpt2, hst2, hdue⟩ := h
    rw [hst] at hst2
    cases hst2
    exact hdue
  refine ⟨?_, hsound, ?_⟩
  · intro hfree
    constructor
    · exact hsound
    · intro hdue
      exact dispatchIds_complete st now ids free id spec stOpt ds fr hfree hid
        hres hst hdue htick
  · intro hback hpos hmem
    have := hsound hmem
    omega

/-- A store with one registered job, a legacy spec of period 50 and no
state entry. -/
def c3Store : Store :=
  (Store.empty.put regKey (encVecStr [ascii "j"])).put
    (specKey (ascii "j")) (encLegacy ⟨ascii "noop", 50⟩)

/-- Witness for C3 at a concrete store: the job with default state is
due at now 100 and dispatched. -/
theorem due_check_governs_dispatch_witness :
    (getTVecStr c3Store regKey = .ok (some [ascii "j"]) ∧
     tick c3Store 100 4 = .ok ([(ascii "j", ⟨50, .noop⟩)], 3) ∧
     resolveSpec c3Store (specKey (ascii "j")) = some ⟨50, .noop⟩ ∧
     getTJobState c3Store (stateKey (ascii "j")) = .ok none) ∧
    (([ascii "j"] : List (List Nat)).length ≤ 4 →
      ((ascii "j", (⟨50, .noop⟩ : JobSpec)) ∈
          [((ascii "j" : List Nat), (⟨50, .noop⟩ : JobSpec))] ↔
        effectivePeriod ⟨50, .noop⟩ ((none : Option JobState).getD {}) ≤
          100 - ((none : Option JobState).getD {}).last_run_ms)) ∧
    ((ascii "j", (⟨50, .noop⟩ : JobSpec)) ∈
        [((ascii "j" : List Nat), (⟨50, .noop⟩ : JobSpec))] →
      effectivePeriod ⟨50, .noop⟩ ((none : Option JobState).getD {}) ≤
        100 - ((none : Option JobState).getD {}).last_run_ms) ∧
    (100 < ((none : Option JobState).getD {}).last_run_ms →
      0 < effectivePeriod ⟨50, .noop⟩ ((none : Option JobState).getD {}) →
      (ascii "j", (⟨50, .noop⟩ : JobSpec)) ∉
        [((ascii "j" : List Nat), (⟨50, .noop⟩ : JobSpec))]) :=
  ⟨⟨rfl, rfl, rfl, rfl⟩,
    due_check_governs_dispatch c3Store 100 4 [ascii "j"]
      [(ascii "j", ⟨50, .noop⟩)] 3 (ascii "j") ⟨50, .noop⟩ none
      rfl rfl (List.mem_singleton.mpr rfl) rfl rfl⟩

/-- C9: the concurrency model of the dispatch semaphore: from the
initial state with max_concurrency free permits, no reachable state has
more than max_concurrency executions running; a dispatch requires a
free permit; the permit is released on completion for both outcomes;
and within one tick the number of dispatched jobs never exceeds the
free permits, a saturated tick dispatching nothing and skipping
without error. -/
theorem concurrency_capped :
    (∀ (cap : Nat) (evs : List SemEv) (s : SemState),
        SemReach (semInit cap) evs s → s.running ≤ cap) ∧
    (∀ (s2 : SemState) (f r : Nat), SemStep ⟨f, r⟩ .dispatch s2 → 0 < f) ∧
    (∀ (f r : Nat) (ok : Bool), SemStep ⟨f, r + 1⟩ (.complete ok) ⟨f + 1, r⟩) ∧
    (∀ (st : Store) (now : Nat) (ids : List (List Nat)) (free : Nat)
        (ds : List (List Nat × JobSpec)) (fr : Nat),
        dispatchIds st now ids free = .ok (ds, fr) →
        ds.length ≤ free ∧ (free = 0 → ds = [])) := by
  refine ⟨?_, ?_, ?_, ?_⟩
  · intro cap evs s h
    have hinit : (semInit cap).free + (semInit cap).running = cap := by simp [semInit]
    have := semReach_inv h hinit
    omega
  · intro s2 f r h
    cases h
    omega
  · intro f r ok
    exact SemStep.complete f r ok
  · intro st now ids free ds fr h
    have := dispatchIds_permits st now ids free ds fr h
    constructor
    · omega
    · intro h0
      have hlen : ds.length = 0 := by omega
      exact List.length_eq_zero.mp hlen

/-- Witness for C9: a dispatch and a completion from capacity one. -/
theorem concurrency_capped_witness :
    SemReach (semInit 1) [.dispatch, .complete true] ⟨1, 0⟩ ∧
    (⟨1, 0⟩ : SemState).running ≤ 1 :=
  ⟨SemReach.cons (SemStep.dispatch 0 0)
      (SemReach.cons (SemStep.complete 0 0 true) (SemReach.nil _)),
    concurrency_capped.1 1 [.dispatch, .complete true] ⟨1, 0⟩
      (SemReach.cons (SemStep.dispatch 0 0)
        (SemReach.cons (SemStep.complete 0 0 true) (SemReach.nil _)))⟩

end Sentinel
